import Mathlib

/-!
Partition consumer of the cluster package.

A shallow embedding of `cluster/partition_consumer.go` and the properties of
its operations `offsetIsOutOfRange`, `NewPartitionConsumer`, `Offset`, `Fetch`
and `Close`.

Modelling conventions.

* Go's `int32` and `int64` values are integers (`Int`).  The code only copies
  and compares them, it never does arithmetic on them, so no wrap-around can
  occur.
* A Go `error` interface value is `Option GoError`: `none` is the `nil` error.
* A `*sarama.ConsumerEvent` is modelled by the event it points to: the events
  travelling through the channel and stored in a batch are non-nil pointers.
* A `*EventBatch` and a `*PartitionConsumer` that may be `nil` are `Option`s.
* The buffered channel returned by `stream.Events()` is the list of the events
  it currently holds, oldest first.  Receiving removes the head; receiving from
  an empty channel blocks, which the embedding renders as `none`.
* A method with a pointer receiver that mutates the receiver returns the
  receiver after the call together with its result.
-/

/-- A non-nil Go `error` value, by dynamic type: either a `sarama.KError`
(an `int16` broker error code) or a value of some other error type. -/
inductive GoError where
  | kerror (code : Int)
  | other (text : String)
deriving DecidableEq, Repr

namespace Sarama

/-- Modelled from the spec: the `sarama.KError` constant for the broker's
"offset out of range" condition; its declaration lies outside the file
embedded here.  Kafka assigns this condition error code 1. -/
def OffsetOutOfRange : Int := 1

/-- Modelled from the spec: the `sarama.ConsumerEvent` struct, "one message
read from a partition", with its topic, partition, offset, payload (key and
value bytes) and optional error. -/
structure ConsumerEvent where
  Key : List Nat
  Value : List Nat
  Topic : String
  Partition : Int
  Offset : Int
  Err : Option GoError
deriving DecidableEq, Repr

/-- Modelled from the spec: the start-position mode of a transport,
`sarama.OffsetMethod`; the source names the two constants
`OffsetMethodOldest` and `OffsetMethodManual`. -/
inductive OffsetMethod where
  | OffsetMethodManual
  | OffsetMethodOldest
deriving DecidableEq, Repr

/-- Modelled from the spec: the fields of `sarama.ConsumerConfig` that
`NewPartitionConsumer` writes. -/
structure ConsumerConfig where
  DefaultFetchSize : Int
  MinFetchSize : Int
  MaxMessageSize : Int
  MaxWaitTime : Int
  OffsetMethod : OffsetMethod
  OffsetValue : Int
  EventBufferSize : Int
deriving DecidableEq, Repr

end Sarama

namespace Cluster

open Sarama

/-- The interface `EventStream`.  The value held by a consumer is identified
by `ref`; `closeResult` is what its `Close()` returns.  The channel returned
by its `Events()` is mutable state shared with the producer and is passed to
the operations explicitly. -/
structure EventStream where
  ref : Nat
  closeResult : Option GoError
deriving DecidableEq, Repr

/-- The struct `EventBatch`. -/
structure EventBatch where
  Topic : String
  Partition : Int
  Events : List ConsumerEvent
deriving DecidableEq, Repr

/-- The method `(b *EventBatch) offsetIsOutOfRange()`; the receiver may be
`nil`. -/
def EventBatch.offsetIsOutOfRange (b : Option EventBatch) : Bool :=
  match b with
  | none => false
  | some b =>
    match b.Events with
    | [] => false
    | first :: _ =>
      match first.Err with
      | none => false
      | some (GoError.kerror kerr) => decide (kerr = OffsetOutOfRange)
      | some (GoError.other _) => false

/-- The struct `PartitionConsumer`. -/
structure PartitionConsumer where
  stream : EventStream
  topic : String
  partitionID : Int
  offset : Int
deriving DecidableEq, Repr

/-- The method `(p *PartitionConsumer) Offset()`. -/
def PartitionConsumer.Offset (p : PartitionConsumer) : Int :=
  p.offset

/-- What a call of `Fetch` leaves behind: the returned batch pointer, the
receiver after the call, and the contents of the channel after the call. -/
structure FetchResult where
  batch : Option EventBatch
  consumer : PartitionConsumer
  events : List ConsumerEvent
deriving DecidableEq, Repr

/-- The `for` loop of `Fetch` with `n` iterations still to run.  Iteration `i`
receives one event, stores it in slot `i` of the batch (the slots before `i`
are the ones already filled, so the store extends the filled part by one) and
moves the cursor when the event has no error and a larger offset. -/
def PartitionConsumer.fetchLoop :
    Nat → PartitionConsumer → EventBatch → List ConsumerEvent →
      Option (PartitionConsumer × EventBatch × List ConsumerEvent)
  | 0, p, batch, events => some (p, batch, events)
  | _ + 1, _, _, [] => none
  | n + 1, p, batch, event :: events =>
    let batch := { batch with Events := batch.Events ++ [event] }
    let p := if event.Err = none ∧ event.Offset > p.offset
      then { p with offset := event.Offset } else p
    fetchLoop n p batch events

/-- The method `(p *PartitionConsumer) Fetch()`, called while the channel of
the stream holds `events`.  `none` means the call never returns. -/
def PartitionConsumer.Fetch (p : PartitionConsumer) (events : List ConsumerEvent) :
    Option FetchResult :=
  let evtlen := events.length
  if evtlen < 1 then
    some { batch := none, consumer := p, events := events }
  else
    let batch : EventBatch := { Topic := p.topic, Partition := p.partitionID, Events := [] }
    match PartitionConsumer.fetchLoop evtlen p batch events with
    | none => none
    | some (p, batch, events) => some { batch := some batch, consumer := p, events := events }

/-- The method `(p *PartitionConsumer) Close()`. -/
def PartitionConsumer.Close (p : PartitionConsumer) : Option GoError :=
  p.stream.closeResult

/-- Modelled from the spec: the fetch settings of a consumer group, the fields
of `group.config` that `NewPartitionConsumer` reads; the type is declared in
another file of the package. -/
structure GroupConfig where
  DefaultFetchSize : Int
  MinFetchSize : Int
  MaxMessageSize : Int
  MaxWaitTime : Int
  EventBufferSize : Int
deriving DecidableEq, Repr

/-- Modelled from the spec: the fields of `ConsumerGroup` that
`NewPartitionConsumer` reads; the type is declared in another file of the
package.  `client` identifies the `*sarama.Client` of the group. -/
structure ConsumerGroup where
  client : Nat
  name : String
  topic : String
  config : GroupConfig
deriving DecidableEq, Repr

/-- The two collaborators `NewPartitionConsumer` calls, as the pairs of results
they return: the offset source `group.Offset(partition)` and the transport
factory `sarama.NewConsumer(client, topic, partition, group, config)`. -/
structure Collaborators where
  Offset : ConsumerGroup → Int → Int × Option GoError
  NewConsumer : Nat → String → Int → String → ConsumerConfig → EventStream × Option GoError

/-- A call `NewPartitionConsumer` makes on a collaborator, with its arguments. -/
inductive Invocation where
  | Offset (group : ConsumerGroup) (partition : Int)
  | NewConsumer (client : Nat) (topic : String) (partition : Int) (group : String)
      (config : ConsumerConfig)
deriving DecidableEq, Repr

/-- What a call of `NewPartitionConsumer` yields: the two returned values and
the calls it made on its collaborators, in the order it made them. -/
structure Construction where
  consumer : Option PartitionConsumer
  err : Option GoError
  invoked : List Invocation
deriving DecidableEq, Repr

/-- The function `NewPartitionConsumer(group, partition)`. -/
def NewPartitionConsumer (env : Collaborators) (group : ConsumerGroup) (partition : Int) :
    Construction :=
  let config : ConsumerConfig :=
    { DefaultFetchSize := group.config.DefaultFetchSize
      MinFetchSize := group.config.MinFetchSize
      MaxMessageSize := group.config.MaxMessageSize
      MaxWaitTime := group.config.MaxWaitTime
      OffsetMethod := OffsetMethod.OffsetMethodOldest
      OffsetValue := 0
      EventBufferSize := group.config.EventBufferSize }
  let (offset, err) := env.Offset group partition
  let invoked := [Invocation.Offset group partition]
  match err with
  | some e => { consumer := none, err := some e, invoked := invoked }
  | none =>
    let config := if offset > 0
      then { config with OffsetMethod := OffsetMethod.OffsetMethodManual, OffsetValue := offset }
      else config
    let (stream, err) := env.NewConsumer group.client group.topic partition group.name config
    let invoked := invoked ++
      [Invocation.NewConsumer group.client group.topic partition group.name config]
    match err with
    | some e => { consumer := none, err := some e, invoked := invoked }
    | none =>
      { consumer := some
          { stream := stream, topic := group.topic, partitionID := partition, offset := offset }
        err := none
        invoked := invoked }

/-- A call a client makes on a consumer: `Fetch` at a time when the channel
holds the given events, or `Offset`. -/
inductive ClientCall where
  | Fetch (events : List ConsumerEvent)
  | Offset
deriving DecidableEq, Repr

/-- Runs a sequence of client calls on a consumer and collects, in order, the
values the `Offset` calls return, together with the consumer at the end.
`none` when some `Fetch` never returns. -/
def runCalls : PartitionConsumer → List ClientCall → Option (List Int × PartitionConsumer)
  | p, [] => some ([], p)
  | p, ClientCall.Offset :: calls =>
    match runCalls p calls with
    | none => none
    | some (seen, q) => some (p.Offset :: seen, q)
  | p, ClientCall.Fetch events :: calls =>
    match p.Fetch events with
    | none => none
    | some r => runCalls r.consumer calls

/-- The cursor as the spec words it: the largest value among the current
cursor and the offsets of the events that carry no error. -/
def maxErrorFreeOffset (c : Int) (events : List ConsumerEvent) : Int :=
  ((events.filter (fun e => e.Err = none)).map (fun e => e.Offset)).foldl max c

/-- An event for examples: empty payload, topic "t", partition 0. -/
def sampleEvent (offset : Int) (err : Option GoError) : ConsumerEvent :=
  { Key := [], Value := [], Topic := "t", Partition := 0, Offset := offset, Err := err }

/-- A consumer for examples: topic "t", partition 3, cursor `c`. -/
def sampleConsumer (c : Int) : PartitionConsumer :=
  { stream := { ref := 0, closeResult := none }, topic := "t", partitionID := 3, offset := c }

/-- Two events agree in every field, except possibly in `Offset` when they
carry an error. -/
def agreeUpToErroredOffset (a b : ConsumerEvent) : Prop :=
  a.Key = b.Key ∧ a.Value = b.Value ∧ a.Topic = b.Topic ∧ a.Partition = b.Partition ∧
    a.Err = b.Err ∧ (a.Err = none → a.Offset = b.Offset)

instance agreeUpToErroredOffset.decidable : DecidableRel agreeUpToErroredOffset :=
  fun a b => by unfold agreeUpToErroredOffset; infer_instance

/-- A consumer group for examples: client 1, name "g", topic "t". -/
def sampleGroup : ConsumerGroup :=
  { client := 1, name := "g", topic := "t"
    config :=
      { DefaultFetchSize := 1024, MinFetchSize := 1, MaxMessageSize := 4096
        MaxWaitTime := 250, EventBufferSize := 16 } }

/-- Collaborators for examples: the offset source always answers `stored`, the
transport factory always answers stream 7 with the error `created`. -/
def sampleCollaborators (stored : Int × Option GoError) (created : Option GoError) :
    Collaborators :=
  { Offset := fun _ _ => stored
    NewConsumer := fun _ _ _ _ _ => ({ ref := 7, closeResult := none }, created) }

/-- The configuration `NewPartitionConsumer` hands to the transport factory
when the offset source answers `offset` without an error. -/
def startConfig (group : ConsumerGroup) (offset : Int) : ConsumerConfig :=
  { DefaultFetchSize := group.config.DefaultFetchSize
    MinFetchSize := group.config.MinFetchSize
    MaxMessageSize := group.config.MaxMessageSize
    MaxWaitTime := group.config.MaxWaitTime
    OffsetMethod :=
      if offset > 0 then OffsetMethod.OffsetMethodManual else OffsetMethod.OffsetMethodOldest
    OffsetValue := if offset > 0 then offset else 0
    EventBufferSize := group.config.EventBufferSize }

/-- The method `Offset()` as a step on the state a client can observe, the
consumer and the contents of the channel: its body only reads `p.offset`, so
both are handed back as they were, next to the returned value. -/
def PartitionConsumer.OffsetStep (p : PartitionConsumer) (events : List ConsumerEvent) :
    Int × PartitionConsumer × List ConsumerEvent :=
  (p.Offset, p, events)

/-- The method `Close()` as a step on the consumer: its body assigns to no
field of the receiver, so the receiver is handed back as it was, next to the
returned error. -/
def PartitionConsumer.CloseStep (p : PartitionConsumer) : Option GoError × PartitionConsumer :=
  (p.Close, p)

/-- Whether a call is a call of the transport factory. -/
def Invocation.isNewConsumer : Invocation → Bool
  | Invocation.NewConsumer _ _ _ _ _ => true
  | Invocation.Offset _ _ => false

/-! ## The loop of `Fetch` -/

/-- The cursor the loop of `Fetch` reaches from cursor `c` over the events it
receives. -/
def cursorAfter : Int → List ConsumerEvent → Int
  | c, [] => c
  | c, e :: es => cursorAfter (if e.Err = none ∧ e.Offset > c then e.Offset else c) es

theorem fetchLoop_drains (xs ys : List ConsumerEvent) :
    ∀ (p : PartitionConsumer) (batch : EventBatch),
      PartitionConsumer.fetchLoop xs.length p batch (xs ++ ys) =
        some ({ p with offset := cursorAfter p.offset xs },
              { batch with Events := batch.Events ++ xs }, ys) := by
  induction xs with
  | nil => intro p batch; simp [PartitionConsumer.fetchLoop, cursorAfter]
  | cons x xs ih =>
    intro p batch
    simp only [List.length_cons, List.cons_append, PartitionConsumer.fetchLoop]
    by_cases h : x.Err = none ∧ x.Offset > p.offset
    · rw [if_pos h]
      exact (ih _ _).trans (by simp [cursorAfter, h])
    · rw [if_neg h]
      exact (ih _ _).trans (by simp [cursorAfter, h])

theorem Fetch_nil (p : PartitionConsumer) :
    p.Fetch [] = some { batch := none, consumer := p, events := [] } := by
  simp [PartitionConsumer.Fetch]

theorem Fetch_of_ne_nil (p : PartitionConsumer) (events : List ConsumerEvent)
    (h : events ≠ []) :
    p.Fetch events = some
      { batch := some { Topic := p.topic, Partition := p.partitionID, Events := events }
        consumer := { p with offset := cursorAfter p.offset events }
        events := [] } := by
  have hlen : ¬ events.length < 1 := by
    cases events with
    | nil => exact absurd rfl h
    | cons x xs => simp
  have hloop := fetchLoop_drains events [] p
    { Topic := p.topic, Partition := p.partitionID, Events := [] }
  rw [List.append_nil] at hloop
  simp only [PartitionConsumer.Fetch, hlen, if_false, hloop, List.nil_append]

theorem Fetch_cursor (p : PartitionConsumer) (events : List ConsumerEvent) :
    ∃ r, p.Fetch events = some r ∧ r.consumer.offset = cursorAfter p.offset events ∧
      r.events = [] ∧ r.consumer.stream = p.stream ∧ r.consumer.topic = p.topic ∧
      r.consumer.partitionID = p.partitionID := by
  cases events with
  | nil => exact ⟨_, Fetch_nil p, by simp [cursorAfter]⟩
  | cons x xs => exact ⟨_, Fetch_of_ne_nil p (x :: xs) (by simp), by simp⟩

theorem cursorAfter_append (c : Int) (xs ys : List ConsumerEvent) :
    cursorAfter c (xs ++ ys) = cursorAfter (cursorAfter c xs) ys := by
  induction xs generalizing c with
  | nil => rfl
  | cons x xs ih => simp [cursorAfter, ih]

theorem le_cursorAfter (c : Int) (es : List ConsumerEvent) : c ≤ cursorAfter c es := by
  induction es generalizing c with
  | nil => exact le_refl c
  | cons e es ih =>
    simp only [cursorAfter]
    split
    · next h => exact le_trans (le_of_lt h.2) (ih _)
    · exact ih _

theorem cursorAfter_mono (c d : Int) (h : c ≤ d) (es : List ConsumerEvent) :
    cursorAfter c es ≤ cursorAfter d es := by
  induction es generalizing c d with
  | nil => exact h
  | cons e es ih =>
    simp only [cursorAfter]
    apply ih
    by_cases herr : e.Err = none
    · simp only [herr, true_and]
      split <;> split <;> omega
    · simp [herr, h]

theorem offset_le_cursorAfter (c : Int) (es : List ConsumerEvent) (e : ConsumerEvent)
    (hmem : e ∈ es) (herr : e.Err = none) : e.Offset ≤ cursorAfter c es := by
  induction es generalizing c with
  | nil => cases hmem
  | cons x xs ih =>
    simp only [cursorAfter]
    rcases List.mem_cons.mp hmem with rfl | hin
    · refine le_trans ?_ (le_cursorAfter _ xs)
      split
      · exact le_refl _
      · next hn => simp only [herr, true_and, not_lt] at hn; exact hn
    · exact ih _ hin

theorem cursorAfter_attained (c : Int) (es : List ConsumerEvent) :
    cursorAfter c es = c ∨
      ∃ e ∈ es, e.Err = none ∧ c < e.Offset ∧ e.Offset = cursorAfter c es := by
  induction es generalizing c with
  | nil => exact Or.inl rfl
  | cons x xs ih =>
    simp only [cursorAfter]
    split
    · next h =>
      rcases ih x.Offset with heq | ⟨e, hin, herr, hlt, heq⟩
      · exact Or.inr ⟨x, List.mem_cons_self _ _, h.1, h.2, heq.symm⟩
      · exact Or.inr ⟨e, List.mem_cons_of_mem _ hin, herr, lt_trans h.2 hlt, heq⟩
    · rcases ih c with heq | ⟨e, hin, herr, hlt, heq⟩
      · exact Or.inl heq
      · exact Or.inr ⟨e, List.mem_cons_of_mem _ hin, herr, hlt, heq⟩

theorem cursorAfter_eq_max (c : Int) (es : List ConsumerEvent) :
    cursorAfter c es = maxErrorFreeOffset c es := by
  induction es generalizing c with
  | nil => rfl
  | cons x xs ih =>
    simp only [cursorAfter, maxErrorFreeOffset]
    by_cases herr : x.Err = none
    · have hstep : (if x.Err = none ∧ x.Offset > c then x.Offset else c) = max c x.Offset := by
        simp only [herr, true_and]
        split
        · next h => exact (max_eq_right (le_of_lt h)).symm
        · next h => exact (max_eq_left (not_lt.mp h)).symm
      rw [hstep, ih]
      simp [maxErrorFreeOffset, List.filter_cons, herr]
    · rw [ih]
      simp [maxErrorFreeOffset, List.filter_cons, herr]

theorem cursorAfter_congr (xs ys : List ConsumerEvent)
    (h : List.Forall₂ agreeUpToErroredOffset xs ys) :
    ∀ c : Int, cursorAfter c xs = cursorAfter c ys := by
  induction h with
  | nil => intro c; rfl
  | @cons a b as bs hab _ ih =>
    intro c
    obtain ⟨-, -, -, -, herr, hoff⟩ := hab
    simp only [cursorAfter]
    by_cases ha : a.Err = none
    · rw [← herr, ← hoff ha]; exact ih _
    · have hb : ¬ b.Err = none := herr ▸ ha
      simp only [ha, hb, false_and, if_false]; exact ih _

theorem runCalls_sorted (calls : List ClientCall) :
    ∀ p : PartitionConsumer, ∃ seen q, runCalls p calls = some (seen, q) ∧
      seen.Pairwise (· ≤ ·) ∧ (∀ o ∈ seen, p.offset ≤ o ∧ o ≤ q.offset) ∧
      p.offset ≤ q.offset ∧ seen.length = calls.count ClientCall.Offset := by
  induction calls with
  | nil => intro p; exact ⟨[], p, rfl, List.Pairwise.nil, by simp, le_refl _, rfl⟩
  | cons call calls ih =>
    intro p
    cases call with
    | Offset =>
      obtain ⟨seen, q, hrun, hsorted, hbound, hle, hlen⟩ := ih p
      refine ⟨p.Offset :: seen, q, by simp [runCalls, hrun], ?_, ?_, hle, by simp [hlen]⟩
      · exact List.Pairwise.cons (fun o ho => (hbound o ho).1) hsorted
      · intro o ho
        rcases List.mem_cons.mp ho with rfl | hin
        · exact ⟨le_refl _, hle⟩
        · exact hbound o hin
    | Fetch events =>
      obtain ⟨r, hfetch, hcur, -⟩ := Fetch_cursor p events
      have hstep : p.offset ≤ r.consumer.offset := hcur ▸ le_cursorAfter p.offset events
      obtain ⟨seen, q, hrun, hsorted, hbound, hle, hlen⟩ := ih r.consumer
      refine ⟨seen, q, by simp [runCalls, hfetch, hrun], hsorted, ?_, le_trans hstep hle, ?_⟩
      · intro o ho
        exact ⟨le_trans hstep (hbound o ho).1, (hbound o ho).2⟩
      · rw [hlen]; simp [List.count_cons]

/-! ## Claims about `Fetch`, `Offset` and `offsetIsOutOfRange` -/

/-- C1: every `Fetch`, whatever the channel holds, returns and leaves a cursor
greater than or equal to the cursor before it; and in every finite sequence of
`Fetch` and `Offset` calls each `Offset` call returns, and the values the
`Offset` calls return, in call order, are non-decreasing. -/
theorem offset_values_nondecreasing :
    (∀ (p : PartitionConsumer) (events : List ConsumerEvent),
      ∃ r, p.Fetch events = some r ∧ p.Offset ≤ r.consumer.Offset) ∧
    (∀ (p : PartitionConsumer) (calls : List ClientCall),
      ∃ seen q, runCalls p calls = some (seen, q) ∧
        seen.length = calls.count ClientCall.Offset ∧
        seen.Pairwise (· ≤ ·) ∧
        (∀ o ∈ seen, p.Offset ≤ o ∧ o ≤ q.Offset)) := by
  constructor
  · intro p events
    obtain ⟨r, hfetch, hcur, -⟩ := Fetch_cursor p events
    exact ⟨r, hfetch, by
      simp only [PartitionConsumer.Offset, hcur]; exact le_cursorAfter _ _⟩
  · intro p calls
    obtain ⟨seen, q, hrun, hsorted, hbound, -, hlen⟩ := runCalls_sorted calls p
    exact ⟨seen, q, hrun, hlen, hsorted, hbound⟩

/-- C2: with a non-empty channel, `Fetch` returns and the cursor it leaves is
the maximum of the cursor before and the offsets of the buffered events whose
`Err` is nil: it is the spec's maximum, it is at least the old cursor and every
error-free offset, and it is the old cursor or one of those offsets.  It is
the old cursor when no buffered event is error-free, and it is 14 for a
cursor below 10 and error-free offsets 10, 11, 12, 13, 14. -/
theorem fetch_cursor_is_max (p : PartitionConsumer) (events : List ConsumerEvent)
    (hne : events ≠ []) :
    ∃ r, p.Fetch events = some r ∧
      r.consumer.Offset = maxErrorFreeOffset p.Offset events ∧
      p.Offset ≤ r.consumer.Offset ∧
      (∀ e ∈ events, e.Err = none → e.Offset ≤ r.consumer.Offset) ∧
      (r.consumer.Offset = p.Offset ∨
        ∃ e ∈ events, e.Err = none ∧ e.Offset = r.consumer.Offset) ∧
      ((∀ e ∈ events, e.Err ≠ none) → r.consumer.Offset = p.Offset) ∧
      (p.Offset < 10 → events.map (fun e => e.Offset) = [10, 11, 12, 13, 14] →
        (∀ e ∈ events, e.Err = none) → r.consumer.Offset = 14) := by
  refine ⟨_, Fetch_of_ne_nil p events hne, ?_⟩
  simp only [PartitionConsumer.Offset]
  refine ⟨cursorAfter_eq_max _ _, le_cursorAfter _ _,
    fun e hin herr => offset_le_cursorAfter _ _ e hin herr, ?_, ?_, ?_⟩
  · rcases cursorAfter_attained p.offset events with h | ⟨e, hin, herr, -, heq⟩
    · exact Or.inl h
    · exact Or.inr ⟨e, hin, herr, heq⟩
  · intro hall
    rcases cursorAfter_attained p.offset events with h | ⟨e, hin, herr, -, -⟩
    · exact h
    · exact absurd herr (hall e hin)
  · intro hlt hoffsets hall
    have hfilter : events.filter (fun e => e.Err = none) = events :=
      List.filter_eq_self.mpr (fun e hin => by simp [hall e hin])
    rw [cursorAfter_eq_max, maxErrorFreeOffset, hfilter, hoffsets]
    simp only [List.foldl_cons, List.foldl_nil]
    omega

/-- C2 at a concrete input: cursor 9 and error-free offsets 10 to 14. -/
theorem fetch_cursor_is_max_witness :
    ∃ r, (sampleConsumer 9).Fetch
        [sampleEvent 10 none, sampleEvent 11 none, sampleEvent 12 none,
          sampleEvent 13 none, sampleEvent 14 none] = some r ∧
      r.consumer.Offset = 14 := by
  obtain ⟨r, hfetch, -, -, -, -, -, hex⟩ := fetch_cursor_is_max (sampleConsumer 9)
    [sampleEvent 10 none, sampleEvent 11 none, sampleEvent 12 none,
      sampleEvent 13 none, sampleEvent 14 none] (by simp)
  exact ⟨r, hfetch, hex (by decide) (by simp [sampleEvent]) (by simp [sampleEvent])⟩

/-- C3: with N ≥ 1 events in the channel, `Fetch` returns a batch whose
`Events` are exactly the N buffered events in arrival order, errored ones
included, and leaves the channel empty. -/
theorem fetch_returns_all_buffered (p : PartitionConsumer) (events : List ConsumerEvent)
    (hN : 1 ≤ events.length) :
    ∃ b q, p.Fetch events = some { batch := some b, consumer := q, events := [] } ∧
      b.Events.length = events.length ∧
      b.Events = events ∧
      (∀ i : Nat, b.Events[i]? = events[i]?) := by
  have hne : events ≠ [] := by
    intro h; rw [h] at hN; simp at hN
  exact ⟨{ Topic := p.topic, Partition := p.partitionID, Events := events },
    { p with offset := cursorAfter p.offset events },
    Fetch_of_ne_nil p events hne, rfl, rfl, fun _ => rfl⟩

/-- C3 at a concrete input: three buffered events, the middle one errored. -/
theorem fetch_returns_all_buffered_witness :
    ∃ b q, (sampleConsumer 5).Fetch
        [sampleEvent 10 none, sampleEvent 99 (some (GoError.other "broken")),
          sampleEvent 11 none] = some { batch := some b, consumer := q, events := [] } ∧
      b.Events = [sampleEvent 10 none, sampleEvent 99 (some (GoError.other "broken")),
        sampleEvent 11 none] := by
  obtain ⟨b, q, hfetch, -, heq, -⟩ := fetch_returns_all_buffered (sampleConsumer 5)
    [sampleEvent 10 none, sampleEvent 99 (some (GoError.other "broken")),
      sampleEvent 11 none] (by simp)
  exact ⟨b, q, hfetch, heq⟩

/-- C4: with no event in the channel, `Fetch` returns nil and leaves the
consumer (cursor, topic, partition, stream) and the empty channel as they
were. -/
theorem fetch_empty_returns_nil (p : PartitionConsumer) :
    p.Fetch [] = some { batch := none, consumer := p, events := [] } :=
  Fetch_nil p

/-- C5: `offsetIsOutOfRange` is true exactly for a non-nil batch with at
least one event whose first event's `Err` is the `KError` `OffsetOutOfRange`;
it is false for a nil batch, an empty batch, a nil first error, another
`KError`, an error of another type, and when only a later event carries the
out-of-range error. -/
theorem offsetIsOutOfRange_iff :
    (∀ b : Option EventBatch, EventBatch.offsetIsOutOfRange b = true ↔
      ∃ batch first rest, b = some batch ∧ batch.Events = first :: rest ∧
        first.Err = some (GoError.kerror OffsetOutOfRange)) ∧
    EventBatch.offsetIsOutOfRange none = false ∧
    (∀ batch : EventBatch, batch.Events = [] →
      EventBatch.offsetIsOutOfRange (some batch) = false) ∧
    (∀ (batch : EventBatch) (first : ConsumerEvent) (rest : List ConsumerEvent),
      batch.Events = first :: rest →
        (first.Err = none → EventBatch.offsetIsOutOfRange (some batch) = false) ∧
        (∀ code, first.Err = some (GoError.kerror code) → code ≠ OffsetOutOfRange →
          EventBatch.offsetIsOutOfRange (some batch) = false) ∧
        (∀ text, first.Err = some (GoError.other text) →
          EventBatch.offsetIsOutOfRange (some batch) = false) ∧
        (first.Err ≠ some (GoError.kerror OffsetOutOfRange) →
          (∃ later ∈ rest, later.Err = some (GoError.kerror OffsetOutOfRange)) →
          EventBatch.offsetIsOutOfRange (some batch) = false)) := by
  have hcons : ∀ (batch : EventBatch) (first : ConsumerEvent) (rest : List ConsumerEvent),
      batch.Events = first :: rest →
      (EventBatch.offsetIsOutOfRange (some batch) = true ↔
        first.Err = some (GoError.kerror OffsetOutOfRange)) := by
    intro batch first rest hev
    simp only [EventBatch.offsetIsOutOfRange, hev]
    cases hfe : first.Err with
    | none => simp
    | some err =>
      cases err with
      | kerror code => simp
      | other text => simp
  refine ⟨?_, rfl, ?_, ?_⟩
  · intro b
    constructor
    · intro h
      cases b with
      | none => simp [EventBatch.offsetIsOutOfRange] at h
      | some batch =>
        cases hev : batch.Events with
        | nil => simp [EventBatch.offsetIsOutOfRange, hev] at h
        | cons first rest => exact ⟨batch, first, rest, rfl, hev, (hcons batch first rest hev).mp h⟩
    · rintro ⟨batch, first, rest, rfl, hev, herr⟩
      exact (hcons batch first rest hev).mpr herr
  · intro batch hev
    simp [EventBatch.offsetIsOutOfRange, hev]
  · intro batch first rest hev
    have hiff := hcons batch first rest hev
    have hfalse : first.Err ≠ some (GoError.kerror OffsetOutOfRange) →
        EventBatch.offsetIsOutOfRange (some batch) = false := by
      intro hne
      cases hb : EventBatch.offsetIsOutOfRange (some batch) with
      | false => rfl
      | true => exact absurd (hiff.mp hb) hne
    refine ⟨fun h => hfalse (by simp [h]), fun code h hcode => hfalse ?_,
      fun text h => hfalse (by simp [h]), fun hne _ => hfalse hne⟩
    rw [h]
    intro heq
    exact hcode (by injection heq with h1; injection h1)

/-- C5 at concrete inputs: a batch that starts with the out-of-range error,
and a batch where only the second event carries it. -/
theorem offsetIsOutOfRange_iff_witness :
    EventBatch.offsetIsOutOfRange (some
      { Topic := "t", Partition := 0,
        Events := [sampleEvent 7 (some (GoError.kerror OffsetOutOfRange))] }) = true ∧
    EventBatch.offsetIsOutOfRange (some
      { Topic := "t", Partition := 0,
        Events := [sampleEvent 7 none,
          sampleEvent 8 (some (GoError.kerror OffsetOutOfRange))] }) = false :=
  ⟨(offsetIsOutOfRange_iff.1 _).mpr ⟨_, _, _, rfl, rfl, rfl⟩,
    (offsetIsOutOfRange_iff.2.2.2 _ _ _ rfl).1 rfl⟩

/-- C6: `Fetch` returns, and the cursor it leaves is strictly greater than the
cursor before exactly when the returned batch contains an event with nil `Err`
and an offset greater than the cursor before; otherwise the cursor is the one
before. -/
theorem fetch_cursor_increases_iff (p : PartitionConsumer) (events : List ConsumerEvent) :
    ∃ r, p.Fetch events = some r ∧
      (p.Offset < r.consumer.Offset ↔
        ∃ b, r.batch = some b ∧ ∃ e ∈ b.Events, e.Err = none ∧ p.Offset < e.Offset) ∧
      ((¬ ∃ b, r.batch = some b ∧ ∃ e ∈ b.Events, e.Err = none ∧ p.Offset < e.Offset) →
        r.consumer.Offset = p.Offset) := by
  have hkey : p.offset < cursorAfter p.offset events ↔
      ∃ e ∈ events, e.Err = none ∧ p.offset < e.Offset := by
    constructor
    · intro hlt
      rcases cursorAfter_attained p.offset events with h | ⟨e, hin, herr, hgt, -⟩
      · exact absurd hlt (by rw [h]; exact lt_irrefl _)
      · exact ⟨e, hin, herr, hgt⟩
    · rintro ⟨e, hin, herr, hgt⟩
      exact lt_of_lt_of_le hgt (offset_le_cursorAfter _ _ e hin herr)
  have hstay : (¬ ∃ e ∈ events, e.Err = none ∧ p.offset < e.Offset) →
      cursorAfter p.offset events = p.offset := by
    intro hno
    rcases cursorAfter_attained p.offset events with h | ⟨e, hin, herr, hgt, -⟩
    · exact h
    · exact absurd ⟨e, hin, herr, hgt⟩ hno
  cases events with
  | nil =>
    refine ⟨_, Fetch_nil p, ?_, fun _ => rfl⟩
    simp [PartitionConsumer.Offset]
  | cons x xs =>
    refine ⟨_, Fetch_of_ne_nil p (x :: xs) (by simp), ?_, ?_⟩
    · simpa [PartitionConsumer.Offset] using hkey
    · simpa [PartitionConsumer.Offset] using hstay

/-- C7: an errored event never influences the cursor.  For two channel
contents that agree except in the `Offset` fields of events whose `Err` is
non-nil, `Fetch` returns in both runs and leaves the same cursor; when every
buffered event carries an error the cursor after `Fetch` is the cursor before;
and for a single buffered out-of-range event the returned one-event batch is
out of range and the cursor is unchanged. -/
theorem errored_events_never_move_cursor (p : PartitionConsumer) :
    (∀ events₁ events₂ : List ConsumerEvent,
      List.Forall₂ agreeUpToErroredOffset events₁ events₂ →
      ∃ r₁ r₂, p.Fetch events₁ = some r₁ ∧ p.Fetch events₂ = some r₂ ∧
        r₁.consumer.Offset = r₂.consumer.Offset) ∧
    (∀ events : List ConsumerEvent, (∀ e ∈ events, e.Err ≠ none) →
      ∃ r, p.Fetch events = some r ∧ r.consumer.Offset = p.Offset) ∧
    (∀ e : ConsumerEvent, e.Err = some (GoError.kerror OffsetOutOfRange) →
      ∃ r, p.Fetch [e] = some r ∧ (∃ b, r.batch = some b ∧ b.Events = [e]) ∧
        EventBatch.offsetIsOutOfRange r.batch = true ∧ r.consumer.Offset = p.Offset) := by
  have hall : ∀ events : List ConsumerEvent, (∀ e ∈ events, e.Err ≠ none) →
      cursorAfter p.offset events = p.offset := by
    intro events herr
    rcases cursorAfter_attained p.offset events with h | ⟨e, hin, hnone, -, -⟩
    · exact h
    · exact absurd hnone (herr e hin)
  refine ⟨?_, ?_, ?_⟩
  · intro events₁ events₂ hagree
    obtain ⟨r₁, h₁, hc₁, -⟩ := Fetch_cursor p events₁
    obtain ⟨r₂, h₂, hc₂, -⟩ := Fetch_cursor p events₂
    refine ⟨r₁, r₂, h₁, h₂, ?_⟩
    simp only [PartitionConsumer.Offset, hc₁, hc₂]
    exact cursorAfter_congr events₁ events₂ hagree p.offset
  · intro events herr
    obtain ⟨r, hr, hc, -⟩ := Fetch_cursor p events
    exact ⟨r, hr, by simp only [PartitionConsumer.Offset, hc]; exact hall events herr⟩
  · intro e herr
    refine ⟨_, Fetch_of_ne_nil p [e] (by simp), ⟨_, rfl, rfl⟩, ?_, ?_⟩
    · simp [EventBatch.offsetIsOutOfRange, herr]
    · simp only [PartitionConsumer.Offset]
      exact hall [e] (by simp [herr])

/-- C7 at concrete inputs: two channel contents that differ only in the offset
of the errored middle event leave the same cursor. -/
theorem errored_events_never_move_cursor_witness :
    ∃ r₁ r₂,
      (sampleConsumer 5).Fetch
        [sampleEvent 6 none, sampleEvent 900 (some (GoError.other "broken")),
          sampleEvent 8 none] = some r₁ ∧
      (sampleConsumer 5).Fetch
        [sampleEvent 6 none, sampleEvent 7 (some (GoError.other "broken")),
          sampleEvent 8 none] = some r₂ ∧
      r₁.consumer.Offset = r₂.consumer.Offset :=
  (errored_events_never_move_cursor (sampleConsumer 5)).1 _ _
    (List.Forall₂.cons (by simp [agreeUpToErroredOffset])
      (List.Forall₂.cons (by simp [agreeUpToErroredOffset, sampleEvent])
        (List.Forall₂.cons (by simp [agreeUpToErroredOffset]) List.Forall₂.nil)))

/-! ## The constructor -/

theorem NewPartitionConsumer_lookup_failed (env : Collaborators) (group : ConsumerGroup)
    (partition s : Int) (e : GoError) (h : env.Offset group partition = (s, some e)) :
    NewPartitionConsumer env group partition =
      { consumer := none, err := some e, invoked := [Invocation.Offset group partition] } := by
  simp [NewPartitionConsumer, h]

theorem NewPartitionConsumer_lookup_ok (env : Collaborators) (group : ConsumerGroup)
    (partition s : Int) (h : env.Offset group partition = (s, none)) :
    NewPartitionConsumer env group partition =
      match (env.NewConsumer group.client group.topic partition group.name
          (startConfig group s)).2 with
      | some e =>
        { consumer := none, err := some e
          invoked := [Invocation.Offset group partition,
            Invocation.NewConsumer group.client group.topic partition group.name
              (startConfig group s)] }
      | none =>
        { consumer := some
            { stream := (env.NewConsumer group.client group.topic partition group.name
                (startConfig group s)).1
              topic := group.topic, partitionID := partition, offset := s }
          err := none
          invoked := [Invocation.Offset group partition,
            Invocation.NewConsumer group.client group.topic partition group.name
              (startConfig group s)] } := by
  have hcfg : (if s > 0 then
      ({ DefaultFetchSize := group.config.DefaultFetchSize
         MinFetchSize := group.config.MinFetchSize
         MaxMessageSize := group.config.MaxMessageSize
         MaxWaitTime := group.config.MaxWaitTime
         OffsetMethod := OffsetMethod.OffsetMethodManual
         OffsetValue := s
         EventBufferSize := group.config.EventBufferSize } : ConsumerConfig)
      else
        { DefaultFetchSize := group.config.DefaultFetchSize
          MinFetchSize := group.config.MinFetchSize
          MaxMessageSize := group.config.MaxMessageSize
          MaxWaitTime := group.config.MaxWaitTime
          OffsetMethod := OffsetMethod.OffsetMethodOldest
          OffsetValue := 0
          EventBufferSize := group.config.EventBufferSize }) = startConfig group s := by
    unfold startConfig
    split <;> rfl
  rcases hres : env.NewConsumer group.client group.topic partition group.name
    (startConfig group s) with ⟨stream, _ | e⟩ <;>
  simp only [NewPartitionConsumer, h, hcfg, hres, List.cons_append, List.nil_append]

theorem NewPartitionConsumer_invoked_ok (env : Collaborators) (group : ConsumerGroup)
    (partition s : Int) (h : env.Offset group partition = (s, none)) :
    (NewPartitionConsumer env group partition).invoked =
      [Invocation.Offset group partition,
        Invocation.NewConsumer group.client group.topic partition group.name
          (startConfig group s)] := by
  rw [NewPartitionConsumer_lookup_ok env group partition s h]
  split <;> rfl

/-! ## Claims about `NewPartitionConsumer` -/

/-- C8: when the offset lookup succeeds with stored offset `s`, the
constructor calls the transport factory, after the lookup, with a
configuration whose `OffsetMethod` is `OffsetMethodOldest` if `s = 0`, and
whose `OffsetMethod` is `OffsetMethodManual` and `OffsetValue` is exactly `s`
if `s > 0`. -/
theorem newPartitionConsumer_start_position (env : Collaborators) (group : ConsumerGroup)
    (partition s : Int) (hlookup : env.Offset group partition = (s, none)) :
    (s = 0 → ∃ config,
      (NewPartitionConsumer env group partition).invoked =
        [Invocation.Offset group partition,
          Invocation.NewConsumer group.client group.topic partition group.name config] ∧
      config.OffsetMethod = OffsetMethod.OffsetMethodOldest) ∧
    (s > 0 → ∃ config,
      (NewPartitionConsumer env group partition).invoked =
        [Invocation.Offset group partition,
          Invocation.NewConsumer group.client group.topic partition group.name config] ∧
      config.OffsetMethod = OffsetMethod.OffsetMethodManual ∧
      config.OffsetValue = s ∧ config.OffsetValue ≠ s + 1 ∧ config.OffsetValue ≠ s - 1) := by
  have hinv := NewPartitionConsumer_invoked_ok env group partition s hlookup
  constructor
  · intro hs
    exact ⟨startConfig group s, hinv, by simp [startConfig, hs]⟩
  · intro hs
    refine ⟨startConfig group s, hinv, ?_⟩
    simp only [startConfig, hs, if_true]
    refine ⟨trivial, trivial, ?_, ?_⟩ <;> omega

/-- C8 at a concrete input: stored offset 1500 gives manual positioning at
1500. -/
theorem newPartitionConsumer_start_position_witness :
    ∃ config,
      (NewPartitionConsumer (sampleCollaborators (1500, none) none) sampleGroup 3).invoked =
        [Invocation.Offset sampleGroup 3,
          Invocation.NewConsumer sampleGroup.client sampleGroup.topic 3 sampleGroup.name
            config] ∧
      config.OffsetMethod = OffsetMethod.OffsetMethodManual ∧ config.OffsetValue = 1500 := by
  obtain ⟨config, hinv, hmethod, hvalue, -⟩ :=
    (newPartitionConsumer_start_position (sampleCollaborators (1500, none) none)
      sampleGroup 3 1500 rfl).2 (by decide)
  exact ⟨config, hinv, hmethod, hvalue⟩

/-- C9: when the offset lookup succeeds with stored offset `s` and the
transport creation the constructor performs succeeds, the constructor returns
a consumer and a nil error; the consumer's `Offset()` is `s`, its topic is the
topic of the group, its partition id is the requested partition, and its
stream is the one the factory returned. -/
theorem newPartitionConsumer_success (env : Collaborators) (group : ConsumerGroup)
    (partition s : Int) (hlookup : env.Offset group partition = (s, none))
    (hcreate : ∀ client topic part name config,
      Invocation.NewConsumer client topic part name config ∈
        (NewPartitionConsumer env group partition).invoked →
      (env.NewConsumer client topic part name config).2 = none) :
    ∃ c config, (NewPartitionConsumer env group partition).consumer = some c ∧
      (NewPartitionConsumer env group partition).err = none ∧
      c.Offset = s ∧ c.topic = group.topic ∧ c.partitionID = partition ∧
      c.stream = (env.NewConsumer group.client group.topic partition group.name config).1 := by
  have hinv := NewPartitionConsumer_invoked_ok env group partition s hlookup
  have hok := hcreate group.client group.topic partition group.name (startConfig group s)
    (by rw [hinv]; simp)
  have hres := NewPartitionConsumer_lookup_ok env group partition s hlookup
  rw [hok] at hres
  exact ⟨PartitionConsumer.mk (env.NewConsumer group.client group.topic partition group.name
      (startConfig group s)).1 group.topic partition s,
    startConfig group s, by rw [hres], by rw [hres], rfl, rfl, rfl, rfl⟩

/-- C9 at a concrete input: stored offset 1500 for partition 3 gives a
consumer whose `Offset()` is 1500. -/
theorem newPartitionConsumer_success_witness :
    ∃ c, (NewPartitionConsumer (sampleCollaborators (1500, none) none) sampleGroup 3).consumer
        = some c ∧ c.Offset = 1500 ∧ c.partitionID = 3 := by
  obtain ⟨c, -, hc, -, hoff, -, hpart, -⟩ :=
    newPartitionConsumer_success (sampleCollaborators (1500, none) none) sampleGroup 3 1500
      rfl (fun _ _ _ _ _ _ => rfl)
  exact ⟨c, hc, hoff, hpart⟩

/-- C10: the constructor calls the offset source first; and when that lookup
returns an error `e`, the constructor returns a nil consumer together with
exactly `e`, the lookup is the only call it made, and the transport factory is
not invoked. -/
theorem newPartitionConsumer_lookup_error (env : Collaborators) (group : ConsumerGroup)
    (partition : Int) :
    (NewPartitionConsumer env group partition).invoked.head? =
      some (Invocation.Offset group partition) ∧
    (∀ (s : Int) (e : GoError), env.Offset group partition = (s, some e) →
      (NewPartitionConsumer env group partition).consumer = none ∧
      (NewPartitionConsumer env group partition).err = some e ∧
      (NewPartitionConsumer env group partition).invoked =
        [Invocation.Offset group partition] ∧
      (∀ client topic part name config,
        Invocation.NewConsumer client topic part name config ∉
          (NewPartitionConsumer env group partition).invoked)) := by
  constructor
  · rcases hres : env.Offset group partition with ⟨s, _ | e⟩
    · rw [NewPartitionConsumer_invoked_ok env group partition s hres]; rfl
    · rw [NewPartitionConsumer_lookup_failed env group partition s e hres]; rfl
  · intro s e hres
    rw [NewPartitionConsumer_lookup_failed env group partition s e hres]
    exact ⟨rfl, rfl, rfl, by simp⟩

/-- C10 at a concrete input: the lookup fails with a broker error code 3 and
the factory would have succeeded. -/
theorem newPartitionConsumer_lookup_error_witness :
    NewPartitionConsumer (sampleCollaborators (0, some (GoError.kerror 3)) none) sampleGroup 3 =
      { consumer := none, err := some (GoError.kerror 3)
        invoked := [Invocation.Offset sampleGroup 3] } := by
  obtain ⟨hc, he, hi, -⟩ :=
    (newPartitionConsumer_lookup_error (sampleCollaborators (0, some (GoError.kerror 3)) none)
      sampleGroup 3).2 0 (GoError.kerror 3) rfl
  cases hres : NewPartitionConsumer (sampleCollaborators (0, some (GoError.kerror 3)) none)
      sampleGroup 3 with
  | mk consumer err invoked =>
    rw [hres] at hc he hi
    simp only at hc he hi
    rw [hc, he, hi]

/-! ## Further claims about the constructor, `Close` and `Fetch` -/

/-- C11: when the offset lookup succeeds and the transport factory call the
constructor makes returns an error `e`, the constructor returns a nil consumer
together with exactly `e`; and the constructor returns a non-nil consumer
exactly when the lookup succeeds and the factory call it then makes
succeeds. -/
theorem newPartitionConsumer_factory_error (env : Collaborators) (group : ConsumerGroup)
    (partition : Int) :
    (∀ (s : Int) (e : GoError), env.Offset group partition = (s, none) →
      (∃ config,
        Invocation.NewConsumer group.client group.topic partition group.name config ∈
          (NewPartitionConsumer env group partition).invoked ∧
        (env.NewConsumer group.client group.topic partition group.name config).2 = some e) →
      (NewPartitionConsumer env group partition).consumer = none ∧
      (NewPartitionConsumer env group partition).err = some e) ∧
    ((NewPartitionConsumer env group partition).consumer ≠ none ↔
      ∃ s, env.Offset group partition = (s, none) ∧
        ∃ config,
          Invocation.NewConsumer group.client group.topic partition group.name config ∈
            (NewPartitionConsumer env group partition).invoked ∧
          (env.NewConsumer group.client group.topic partition group.name config).2 = none) := by
  have hmem : ∀ (s : Int), env.Offset group partition = (s, none) → ∀ config,
      Invocation.NewConsumer group.client group.topic partition group.name config ∈
        (NewPartitionConsumer env group partition).invoked → config = startConfig group s := by
    intro s hs config hin
    rw [NewPartitionConsumer_invoked_ok env group partition s hs] at hin
    simpa using hin
  constructor
  · rintro s e hs ⟨config, hin, herr⟩
    rw [hmem s hs config hin] at herr
    have hres := NewPartitionConsumer_lookup_ok env group partition s hs
    rw [herr] at hres
    rw [hres]
    exact ⟨rfl, rfl⟩
  · constructor
    · intro hsome
      rcases hlook : env.Offset group partition with ⟨s, _ | e⟩
      · refine ⟨s, rfl, startConfig group s, ?_, ?_⟩
        · rw [NewPartitionConsumer_invoked_ok env group partition s hlook]; simp
        · have hres := NewPartitionConsumer_lookup_ok env group partition s hlook
          cases hcall : (env.NewConsumer group.client group.topic partition group.name
              (startConfig group s)).2 with
          | none => rfl
          | some e =>
            rw [hcall] at hres
            exact absurd (by rw [hres]) hsome
      · exact absurd
          (by rw [NewPartitionConsumer_lookup_failed env group partition s e hlook]) hsome
    · rintro ⟨s, hs, config, hin, hok⟩
      rw [hmem s hs config hin] at hok
      have hres := NewPartitionConsumer_lookup_ok env group partition s hs
      rw [hok] at hres
      rw [hres]
      simp

/-- C11 at a concrete input: the lookup answers 1500 and the factory fails
with broker error code 6. -/
theorem newPartitionConsumer_factory_error_witness :
    (NewPartitionConsumer (sampleCollaborators (1500, none) (some (GoError.kerror 6)))
        sampleGroup 3).consumer = none ∧
    (NewPartitionConsumer (sampleCollaborators (1500, none) (some (GoError.kerror 6)))
        sampleGroup 3).err = some (GoError.kerror 6) :=
  (newPartitionConsumer_factory_error (sampleCollaborators (1500, none) (some (GoError.kerror 6)))
    sampleGroup 3).1 1500 (GoError.kerror 6) rfl
    ⟨startConfig sampleGroup 1500, by
      rw [NewPartitionConsumer_invoked_ok _ sampleGroup 3 1500 rfl]; simp, rfl⟩

/-- C12: `Close` returns exactly what the `Close` of the transport returns:
nil when that is nil, and the same error value when that is an error; and the
consumer, its cursor included, is the same after `Close` as before. -/
theorem close_returns_transport_result (p : PartitionConsumer) :
    p.Close = p.stream.closeResult ∧
    (p.stream.closeResult = none → p.Close = none) ∧
    (∀ e : GoError, p.stream.closeResult = some e → p.Close = some e) ∧
    p.CloseStep.1 = p.stream.closeResult ∧
    p.CloseStep.2.Offset = p.Offset ∧
    p.CloseStep.2 = p :=
  ⟨rfl, fun h => h, fun _ h => h, rfl, rfl, rfl⟩

/-- C12 at a concrete input: a transport whose `Close` fails. -/
theorem close_returns_transport_result_witness :
    PartitionConsumer.Close
      { stream := { ref := 2, closeResult := some (GoError.other "teardown") }
        topic := "t", partitionID := 3, offset := 40 } = some (GoError.other "teardown") :=
  (close_returns_transport_result
    { stream := { ref := 2, closeResult := some (GoError.other "teardown") }
      topic := "t", partitionID := 3, offset := 40 }).2.2.1 (GoError.other "teardown") rfl

/-- C13: with a non-empty channel, the batch `Fetch` returns carries the topic
and the partition id of the consumer, whatever topic and partition the events
themselves record. -/
theorem fetch_batch_stamped (p : PartitionConsumer) (events : List ConsumerEvent)
    (hne : events ≠ []) :
    ∃ r b, p.Fetch events = some r ∧ r.batch = some b ∧
      b.Topic = p.topic ∧ b.Partition = p.partitionID :=
  ⟨_, _, Fetch_of_ne_nil p events hne, rfl, rfl, rfl⟩

/-- C13 at a concrete input: an event recorded under another topic and
partition. -/
theorem fetch_batch_stamped_witness :
    ∃ r b, (sampleConsumer 5).Fetch
        [{ Key := [], Value := [], Topic := "other", Partition := 9, Offset := 6,
           Err := none }] = some r ∧
      r.batch = some b ∧ b.Topic = "t" ∧ b.Partition = 3 :=
  fetch_batch_stamped (sampleConsumer 5)
    [{ Key := [], Value := [], Topic := "other", Partition := 9, Offset := 6, Err := none }]
    (by simp)

/-- C14: `Fetch` returns, and what it returns is nil or a batch with at least
one event; it is nil exactly when the channel held no event. -/
theorem fetch_never_empty_batch (p : PartitionConsumer) (events : List ConsumerEvent) :
    ∃ r, p.Fetch events = some r ∧
      (r.batch = none ∨ ∃ b, r.batch = some b ∧ 1 ≤ b.Events.length) ∧
      (r.batch = none ↔ events.length = 0) := by
  cases events with
  | nil => exact ⟨_, Fetch_nil p, Or.inl rfl, by simp⟩
  | cons x xs =>
    exact ⟨_, Fetch_of_ne_nil p (x :: xs) (by simp), Or.inr ⟨_, rfl, by simp⟩, by simp⟩

/-- C15, the claim refuted: from cursor 0, with an out-of-range event followed
by an error-free event of offset 100 in the channel, `Fetch` returns a batch
that satisfies `offsetIsOutOfRange` and moves the cursor to 100; so it is not
the case that every out-of-range batch leaves the cursor where it was. -/
theorem out_of_range_batch_can_advance :
    (∃ r, (sampleConsumer 0).Fetch
        [sampleEvent 5 (some (GoError.kerror OffsetOutOfRange)), sampleEvent 100 none] = some r ∧
      EventBatch.offsetIsOutOfRange r.batch = true ∧
      (sampleConsumer 0).Offset = 0 ∧ r.consumer.Offset = 100) ∧
    ¬ (∀ (p : PartitionConsumer) (events : List ConsumerEvent) (r : FetchResult),
      p.Fetch events = some r → EventBatch.offsetIsOutOfRange r.batch = true →
      r.consumer.Offset = p.Offset) := by
  have hfetch := Fetch_of_ne_nil (sampleConsumer 0)
    [sampleEvent 5 (some (GoError.kerror OffsetOutOfRange)), sampleEvent 100 none] (by simp)
  have hcur : cursorAfter (sampleConsumer 0).offset
      [sampleEvent 5 (some (GoError.kerror OffsetOutOfRange)), sampleEvent 100 none] = 100 := by
    simp [cursorAfter, sampleEvent, sampleConsumer]
  have hoor : EventBatch.offsetIsOutOfRange (some
      { Topic := (sampleConsumer 0).topic, Partition := (sampleConsumer 0).partitionID
        Events := [sampleEvent 5 (some (GoError.kerror OffsetOutOfRange)),
          sampleEvent 100 none] }) = true := by
    simp [EventBatch.offsetIsOutOfRange, sampleEvent]
  constructor
  · exact ⟨_, hfetch, hoor, rfl, hcur⟩
  · intro hall
    have h := hall _ _ _ hfetch hoor
    simp only [PartitionConsumer.Offset, hcur] at h
    simp [sampleConsumer] at h

/-- C15, amended: when the batch `Fetch` returns satisfies
`offsetIsOutOfRange`, the channel held an out-of-range first event, that event
does not move the cursor, and the cursor after the `Fetch` is the maximum of
the cursor before and the error-free offsets of the later events; it equals
the cursor before exactly when no later event of the batch is error-free with
an offset above the cursor before. -/
theorem out_of_range_batch_cursor (p : PartitionConsumer) (events : List ConsumerEvent)
    (r : FetchResult) (hfetch : p.Fetch events = some r)
    (hoor : EventBatch.offsetIsOutOfRange r.batch = true) :
    ∃ first rest, events = first :: rest ∧
      first.Err = some (GoError.kerror OffsetOutOfRange) ∧
      r.consumer.Offset = maxErrorFreeOffset p.Offset rest ∧
      (r.consumer.Offset = p.Offset ↔
        ¬ ∃ e ∈ rest, e.Err = none ∧ p.Offset < e.Offset) := by
  cases events with
  | nil =>
    rw [Fetch_nil p] at hfetch
    injection hfetch with hr
    rw [← hr] at hoor
    simp [EventBatch.offsetIsOutOfRange] at hoor
  | cons first rest =>
    rw [Fetch_of_ne_nil p (first :: rest) (by simp)] at hfetch
    injection hfetch with hr
    subst hr
    have hfirst : first.Err = some (GoError.kerror OffsetOutOfRange) := by
      simp only [EventBatch.offsetIsOutOfRange] at hoor
      cases hfe : first.Err with
      | none => simp [hfe] at hoor
      | some err =>
        cases err with
        | kerror code => simp [hfe] at hoor; rw [hoor]
        | other text => simp [hfe] at hoor
    have hskip : cursorAfter p.offset (first :: rest) = cursorAfter p.offset rest := by
      simp [cursorAfter, hfirst]
    refine ⟨first, rest, rfl, hfirst, ?_, ?_⟩
    · simp only [PartitionConsumer.Offset, hskip]
      exact cursorAfter_eq_max _ _
    · simp only [PartitionConsumer.Offset, hskip]
      constructor
      · rintro heq ⟨e, hin, herr, hlt⟩
        have hle := offset_le_cursorAfter p.offset rest e hin herr
        rw [heq] at hle
        exact absurd hlt (not_lt.mpr hle)
      · intro hno
        rcases cursorAfter_attained p.offset rest with h | ⟨e, hin, herr, hlt, -⟩
        · exact h
        · exact absurd ⟨e, hin, herr, hlt⟩ hno

/-- C15, amended, at a concrete input: a single out-of-range event leaves the
cursor at 40. -/
theorem out_of_range_batch_cursor_witness :
    (sampleConsumer 40).Fetch [sampleEvent 5 (some (GoError.kerror OffsetOutOfRange))] =
      some { batch := some { Topic := "t", Partition := 3,
                             Events := [sampleEvent 5 (some (GoError.kerror OffsetOutOfRange))] }
             consumer := sampleConsumer 40
             events := [] } ∧
    ∃ first rest,
      [sampleEvent 5 (some (GoError.kerror OffsetOutOfRange))] = first :: rest ∧
      first.Err = some (GoError.kerror OffsetOutOfRange) ∧
      (sampleConsumer 40).Offset = maxErrorFreeOffset (sampleConsumer 40).Offset rest := by
  have hfetch : (sampleConsumer 40).Fetch
      [sampleEvent 5 (some (GoError.kerror OffsetOutOfRange))] =
      some { batch := some { Topic := "t", Partition := 3,
                             Events := [sampleEvent 5 (some (GoError.kerror OffsetOutOfRange))] }
             consumer := sampleConsumer 40
             events := [] } := by
    rw [Fetch_of_ne_nil _ _ (by simp)]
    simp [cursorAfter, sampleEvent, sampleConsumer]
  obtain ⟨first, rest, hev, herr, hcur, -⟩ := out_of_range_batch_cursor (sampleConsumer 40)
    [sampleEvent 5 (some (GoError.kerror OffsetOutOfRange))] _ hfetch
    (by simp [EventBatch.offsetIsOutOfRange, sampleEvent])
  exact ⟨hfetch, first, rest, hev, herr, hcur⟩

/-- C16: when the offset lookup succeeds, the constructor calls the transport
factory exactly once, with the client, the topic and the name of the group,
the requested partition, and a configuration whose `DefaultFetchSize`,
`MinFetchSize`, `MaxMessageSize`, `MaxWaitTime` and `EventBufferSize` are
those of the configuration of the group. -/
theorem newPartitionConsumer_factory_call (env : Collaborators) (group : ConsumerGroup)
    (partition s : Int) (hlookup : env.Offset group partition = (s, none)) :
    ∃ config,
      (NewPartitionConsumer env group partition).invoked =
        [Invocation.Offset group partition,
          Invocation.NewConsumer group.client group.topic partition group.name config] ∧
      (NewPartitionConsumer env group partition).invoked.countP Invocation.isNewConsumer = 1 ∧
      config.DefaultFetchSize = group.config.DefaultFetchSize ∧
      config.MinFetchSize = group.config.MinFetchSize ∧
      config.MaxMessageSize = group.config.MaxMessageSize ∧
      config.MaxWaitTime = group.config.MaxWaitTime ∧
      config.EventBufferSize = group.config.EventBufferSize := by
  have hinv := NewPartitionConsumer_invoked_ok env group partition s hlookup
  refine ⟨startConfig group s, hinv, ?_, rfl, rfl, rfl, rfl, rfl⟩
  rw [hinv]
  simp [List.countP_cons, Invocation.isNewConsumer]

/-- C16 at a concrete input: the sample group, partition 3, stored offset 0. -/
theorem newPartitionConsumer_factory_call_witness :
    ∃ config,
      (NewPartitionConsumer (sampleCollaborators (0, none) none) sampleGroup 3).invoked =
        [Invocation.Offset sampleGroup 3, Invocation.NewConsumer 1 "t" 3 "g" config] ∧
      config.DefaultFetchSize = 1024 ∧ config.MinFetchSize = 1 ∧
      config.MaxMessageSize = 4096 ∧ config.MaxWaitTime = 250 ∧
      config.EventBufferSize = 16 := by
  obtain ⟨config, hinv, -, h1, h2, h3, h4, h5⟩ :=
    newPartitionConsumer_factory_call (sampleCollaborators (0, none) none) sampleGroup 3 0 rfl
  exact ⟨config, hinv, h1, h2, h3, h4, h5⟩

/-- C17: `Fetch` returns and leaves the topic, the partition id and the stream
of the consumer as they were; `Offset` returns the cursor and leaves the whole
consumer, the cursor included, and the contents of the channel as they
were. -/
theorem fetch_and_offset_frame (p : PartitionConsumer) (events : List ConsumerEvent) :
    (∃ r, p.Fetch events = some r ∧
      r.consumer.topic = p.topic ∧ r.consumer.partitionID = p.partitionID ∧
      r.consumer.stream = p.stream) ∧
    (p.OffsetStep events).1 = p.offset ∧
    (p.OffsetStep events).2.1 = p ∧
    (p.OffsetStep events).2.1.offset = p.offset ∧
    (p.OffsetStep events).2.2 = events := by
  obtain ⟨r, hfetch, -, -, hstream, htopic, hpart⟩ := Fetch_cursor p events
  exact ⟨⟨r, hfetch, htopic, hpart, hstream⟩, rfl, rfl, rfl, rfl⟩

/-- C18: for non-empty event lists `A` and `B`, a `Fetch` with `A` in the
channel followed by a `Fetch` once `B` has arrived leaves the same consumer,
hence the same cursor, as one `Fetch` with `A` followed by `B` in the channel,
and the events of the two batches, concatenated, are the events of the one
batch. -/
theorem fetch_batch_boundaries (p : PartitionConsumer) (A B : List ConsumerEvent)
    (hA : A ≠ []) (hB : B ≠ []) :
    ∃ r₁ r₂ r b₁ b₂ b,
      p.Fetch A = some r₁ ∧ r₁.consumer.Fetch (r₁.events ++ B) = some r₂ ∧
      p.Fetch (A ++ B) = some r ∧
      r₁.batch = some b₁ ∧ r₂.batch = some b₂ ∧ r.batch = some b ∧
      r₂.consumer.Offset = r.consumer.Offset ∧ r₂.consumer = r.consumer ∧
      b₁.Events ++ b₂.Events = b.Events := by
  have hAB : A ++ B ≠ [] := by simp [hA]
  have h₂ : PartitionConsumer.Fetch { p with offset := cursorAfter p.offset A } ([] ++ B) =
      some _ := Fetch_of_ne_nil _ B hB
  refine ⟨_, _, _, _, _, _, Fetch_of_ne_nil p A hA, h₂, Fetch_of_ne_nil p (A ++ B) hAB,
    rfl, rfl, rfl, ?_, ?_, ?_⟩
  · simp [PartitionConsumer.Offset, cursorAfter_append]
  · simp [cursorAfter_append]
  · rfl

/-- C18 at a concrete input: the events of offsets 6 and 9, then 7 with an
error and 8, fetched in two batches and in one. -/
theorem fetch_batch_boundaries_witness :
    ∃ r₂ r,
      ((sampleConsumer 5).Fetch [sampleEvent 6 none, sampleEvent 9 none]).bind
        (fun r₁ => r₁.consumer.Fetch
          (r₁.events ++ [sampleEvent 7 (some (GoError.other "broken")), sampleEvent 8 none]))
        = some r₂ ∧
      (sampleConsumer 5).Fetch
        ([sampleEvent 6 none, sampleEvent 9 none] ++
          [sampleEvent 7 (some (GoError.other "broken")), sampleEvent 8 none]) = some r ∧
      r₂.consumer.Offset = r.consumer.Offset := by
  obtain ⟨r₁, r₂, r, -, -, -, h₁, h₂, h, -, -, -, hcur, -⟩ :=
    fetch_batch_boundaries (sampleConsumer 5) [sampleEvent 6 none, sampleEvent 9 none]
      [sampleEvent 7 (some (GoError.other "broken")), sampleEvent 8 none] (by simp) (by simp)
  exact ⟨r₂, r, by rw [h₁]; exact h₂, h, hcur⟩

/-- C19: when the offset lookup succeeds with stored offset `s`, the
configuration handed to the transport factory has `OffsetMethodManual` exactly
when `s` is strictly positive; for `s ≤ 0`, negative values included, it has
`OffsetMethodOldest` and `OffsetValue` 0, and when the factory call succeeds
the cursor of the new consumer is `s` itself. -/
theorem newPartitionConsumer_manual_iff_positive (env : Collaborators) (group : ConsumerGroup)
    (partition s : Int) (hlookup : env.Offset group partition = (s, none)) :
    ∃ config,
      (NewPartitionConsumer env group partition).invoked =
        [Invocation.Offset group partition,
          Invocation.NewConsumer group.client group.topic partition group.name config] ∧
      (config.OffsetMethod = OffsetMethod.OffsetMethodManual ↔ 0 < s) ∧
      (s ≤ 0 → config.OffsetMethod = OffsetMethod.OffsetMethodOldest ∧
        config.OffsetValue = 0) ∧
      (s ≤ 0 →
        (env.NewConsumer group.client group.topic partition group.name config).2 = none →
        ∃ c, (NewPartitionConsumer env group partition).consumer = some c ∧ c.Offset = s) := by
  have hinv := NewPartitionConsumer_invoked_ok env group partition s hlookup
  refine ⟨startConfig group s, hinv, ?_, ?_, ?_⟩
  · by_cases hs : s > 0
    · simp [startConfig, hs]
    · simp [startConfig, hs]
  · intro hs
    have hn : ¬ s > 0 := not_lt.mpr hs
    simp [startConfig, hn]
  · intro _ hok
    have hres := NewPartitionConsumer_lookup_ok env group partition s hlookup
    rw [hok] at hres
    exact ⟨PartitionConsumer.mk (env.NewConsumer group.client group.topic partition group.name
      (startConfig group s)).1 group.topic partition s, by rw [hres], rfl⟩

/-- C19 at a concrete input: stored offset -5 gives oldest-start, `OffsetValue`
0 and a consumer whose cursor is -5. -/
theorem newPartitionConsumer_manual_iff_positive_witness :
    ∃ config c,
      (NewPartitionConsumer (sampleCollaborators (-5, none) none) sampleGroup 3).invoked =
        [Invocation.Offset sampleGroup 3, Invocation.NewConsumer 1 "t" 3 "g" config] ∧
      config.OffsetMethod = OffsetMethod.OffsetMethodOldest ∧ config.OffsetValue = 0 ∧
      (NewPartitionConsumer (sampleCollaborators (-5, none) none) sampleGroup 3).consumer =
        some c ∧ c.Offset = -5 := by
  obtain ⟨config, hinv, -, hold, hcur⟩ :=
    newPartitionConsumer_manual_iff_positive (sampleCollaborators (-5, none) none)
      sampleGroup 3 (-5) rfl
  obtain ⟨c, hc, hoff⟩ := hcur (by decide) rfl
  exact ⟨config, c, hinv, (hold (by decide)).1, (hold (by decide)).2, hc, hoff⟩

end Cluster
